import Mathlib

/-!
Shallow embedding of the RCON client in `src/Arkrcon/arkrcon.py`.

Bytes are modelled as `Nat` (with range hypotheses where they matter) and
Python `str` values as lists of Unicode code points (`List Nat`).  Python
exceptions that escape a function are modelled with `Except Unit` (or
`Option` where only one failure mode exists).
-/

namespace Arkrcon

/-- Code points of the string literal "hunter2". -/
def hunter2 : List Nat := [104, 117, 110, 116, 101, 114, 50]

/-- A Unicode code point that Python will UTF-8 encode: in range and not a
surrogate. -/
def ValidChar (c : Nat) : Prop := c < 1114112 ∧ ¬(55296 ≤ c ∧ c < 57344)

instance (c : Nat) : Decidable (ValidChar c) := by
  unfold ValidChar; infer_instance

/-- UTF-8 encoding of a single code point (the standard 1-4 byte scheme,
as produced by Python `bytes(s, "UTF-8")` for encodable code points). -/
def utf8EncodeChar (c : Nat) : List Nat :=
  if c < 128 then [c]
  else if c < 2048 then [192 + c / 64, 128 + c % 64]
  else if c < 65536 then [224 + c / 4096, 128 + c / 64 % 64, 128 + c % 64]
  else [240 + c / 262144, 128 + c / 4096 % 64, 128 + c / 64 % 64, 128 + c % 64]

/-- UTF-8 encoding of a whole string (list of code points), as
`bytes(packet_body, "UTF-8")`. -/
def utf8Encode : List Nat → List Nat
  | [] => []
  | c :: cs => utf8EncodeChar c ++ utf8Encode cs

/-- A UTF-8 continuation byte. -/
def contB (b : Nat) : Prop := 128 ≤ b ∧ b < 192

instance (b : Nat) : Decidable (contB b) := by
  unfold contB; infer_instance

/-- Decode one UTF-8 scalar from the front of a byte list: the code point
and the remaining bytes, or `none` on a stray or missing continuation
byte, an overlong encoding, a surrogate, or an out-of-range value —
exactly the inputs Python's strict `str(b, "UTF-8")` rejects. -/
def decodeOne : List Nat → Option (Nat × List Nat)
  | [] => none
  | b :: rest =>
    if b < 128 then some (b, rest)
    else if b < 192 then none
    else if b < 224 then
      if 1 ≤ rest.length ∧ contB (rest.getD 0 0) then
        let v := (b - 192) * 64 + (rest.getD 0 0 - 128)
        if 128 ≤ v then some (v, rest.drop 1) else none
      else none
    else if b < 240 then
      if 2 ≤ rest.length ∧ contB (rest.getD 0 0) ∧ contB (rest.getD 1 0) then
        let v := (b - 224) * 4096 + (rest.getD 0 0 - 128) * 64 + (rest.getD 1 0 - 128)
        if 2048 ≤ v ∧ ¬(55296 ≤ v ∧ v < 57344) then some (v, rest.drop 2) else none
      else none
    else if b < 248 then
      if 3 ≤ rest.length ∧ contB (rest.getD 0 0) ∧ contB (rest.getD 1 0) ∧
          contB (rest.getD 2 0) then
        let v := (b - 240) * 262144 + (rest.getD 0 0 - 128) * 4096 +
          (rest.getD 1 0 - 128) * 64 + (rest.getD 2 0 - 128)
        if 65536 ≤ v ∧ v < 1114112 then some (v, rest.drop 3) else none
      else none
    else none

/-- Fuel-bounded iteration of `decodeOne`; one unit of fuel suffices per
input byte, since `decodeOne` always consumes at least one byte. -/
def utf8DecodeF : Nat → List Nat → Option (List Nat)
  | _, [] => some []
  | 0, _ :: _ => none
  | fuel + 1, b :: rest =>
    match decodeOne (b :: rest) with
    | none => none
    | some (v, rest2) => (utf8DecodeF fuel rest2).map (fun s => v :: s)

/-- Strict UTF-8 decoding of a whole byte list, as Python
`str(b, "UTF-8")`; `none` models `UnicodeDecodeError`. -/
def utf8Decode (l : List Nat) : Option (List Nat) := utf8DecodeF l.length l

/-- Little-endian byte list of a natural number, `w` bytes wide:
`int.to_bytes(n, w, "little", signed=False)` after its range check. -/
def leBytes (n : Nat) : Nat → List Nat
  | 0 => []
  | w + 1 => n % 256 :: leBytes (n / 256) w

/-- `int.to_bytes(n, w, "little", signed=False)` with its `OverflowError`
(raised for negative values or values needing more than `w` bytes)
modelled as `none`. -/
def intToBytes (n : Int) (w : Nat) : Option (List Nat) :=
  if 0 ≤ n ∧ n < ((2 ^ (8 * w) : Nat) : Int) then some (leBytes n.toNat w) else none

/-- `int.from_bytes(l, "little", signed=False)`. -/
def fromLE (l : List Nat) : Nat :=
  l.foldr (fun b acc => acc * 256 + b) 0

/-- `RCON.SERVERDATA_AUTH`. -/
def SERVERDATA_AUTH : Int := 3

/-- `RCON.SERVERDATA_AUTH_RESPONSE`. -/
def SERVERDATA_AUTH_RESPONSE : Int := 2

/-- `RCON.SERVERDATA_EXECCOMMAND`. -/
def SERVERDATA_EXECCOMMAND : Int := 2

/-- `RCON.SERVERDATA_RESPONSE_VALUE`. -/
def SERVERDATA_RESPONSE_VALUE : Int := 0

/-- `RCON.PacketData`: the fields start out as Python `None`, hence
`Option`.  Wire integers are parsed unsigned, hence `Nat`. -/
structure PacketData where
  size : Option Nat
  pack_id : Option Nat
  pack_type : Option Nat
  body : Option (List Nat)
  deriving DecidableEq, Repr

/-- `RCON.PacketData(None, None, None, None)`. -/
def emptyStruct : PacketData := ⟨none, none, none, none⟩

/-- The local parsing state of `RCON.__reception`: `state` (0 = reading
size, 1 = reading id, 2 = reading type, 3 = reading body, 4 = reading
null terminator), `cur_item`, and `cur_struct`. -/
structure RState where
  state : Nat
  curItem : List Nat
  curStruct : PacketData
  deriving DecidableEq, Repr

/-- The parser state at the top of `RCON.__reception`. -/
def initState : RState := ⟨0, [], emptyStruct⟩

/-- One iteration of the `for b in buf` loop of `RCON.__reception`:
processes one byte, possibly emitting a completed packet (state 4) or
raising (`Except.error`) on a UTF-8 decode failure.  The `elif` chain is
reproduced exactly, including the `cur_struct.size - 9` body bound and
the fall-through that silently drops a byte when no branch matches. -/
def rstep (s : RState) (b : Nat) : Except Unit (RState × Option PacketData) :=
  if s.state = 0 ∧ s.curItem.length < 4 then
    let item := s.curItem ++ [b]
    if item.length = 4 then
      .ok (⟨1, [], { s.curStruct with size := some (fromLE item) }⟩, none)
    else .ok (⟨0, item, s.curStruct⟩, none)
  else if s.state = 1 ∧ s.curItem.length < 4 then
    let item := s.curItem ++ [b]
    if item.length = 4 then
      .ok (⟨2, [], { s.curStruct with pack_id := some (fromLE item) }⟩, none)
    else .ok (⟨1, item, s.curStruct⟩, none)
  else if s.state = 2 ∧ s.curItem.length < 4 then
    let item := s.curItem ++ [b]
    if item.length = 4 then
      .ok (⟨3, [], { s.curStruct with pack_type := some (fromLE item) }⟩, none)
    else .ok (⟨2, item, s.curStruct⟩, none)
  else if s.state = 3 then
    match s.curStruct.size with
    | none => .error ()
    | some sz =>
      if (s.curItem.length : Int) < (sz : Int) - 9 then
        let item := s.curItem ++ [b]
        if (item.length : Int) = (sz : Int) - 9 then
          match utf8Decode item with
          | none => .error ()
          | some d => .ok (⟨4, [], { s.curStruct with body := some d }⟩, none)
        else .ok (⟨3, item, s.curStruct⟩, none)
      else .ok (s, none)
  else if s.state = 4 then
    .ok (⟨0, s.curItem, emptyStruct⟩, some s.curStruct)
  else .ok (s, none)

/-- The `for b in buf` loop over a whole byte chunk: threads the state and
collects emitted packets in order; an escaping exception aborts the run
(its result only signals the exception — the packets the loop emitted
before raising are tracked by `processBytesEm` below, since emission is
a side effect the exception does not undo). -/
def processBytes (s : RState) : List Nat → Except Unit (RState × List PacketData)
  | [] => .ok (s, [])
  | b :: rest =>
    match rstep s b with
    | .error e => .error e
    | .ok (s', none) => processBytes s' rest
    | .ok (s', some p) =>
      match processBytes s' rest with
      | .error e => .error e
      | .ok (s2, ps) => .ok (s2, p :: ps)

/-- The same `for b in buf` loop, with emissions kept separate from the
outcome: each completed packet is printed and appended to the
responded-ids list at its state-4 step, so packets emitted earlier in
the buffer persist even when a later byte raises `UnicodeDecodeError`.
Agrees with `processBytes` (see `processBytes_eq_processBytesEm`). -/
def processBytesEm (s : RState) : List Nat → List PacketData × Except Unit RState
  | [] => ([], .ok s)
  | b :: rest =>
    match rstep s b with
    | .error e => ([], .error e)
    | .ok (s', none) => processBytesEm s' rest
    | .ok (s', some p) =>
      let r := processBytesEm s' rest
      (p :: r.1, r.2)

/-- Feeding a sequence of received chunks through the loop, as successive
`sock.recv` results (each non-empty in this model). -/
def processChunks (s : RState) : List (List Nat) → Except Unit (RState × List PacketData)
  | [] => .ok (s, [])
  | c :: cs =>
    match processBytes s c with
    | .error e => .error e
    | .ok (s', ps) =>
      match processChunks s' cs with
      | .error e => .error e
      | .ok (s2, qs) => .ok (s2, ps ++ qs)

/-- `RCON.__build_packet(packet_id, packet_type, packet_body)`:
UTF-8 encodes the body, sets `size = len(body) + 10`, and concatenates
the three little-endian 4-byte integers, the body, and two zero bytes;
`none` models the `OverflowError` of `int.to_bytes`. -/
def build_packet (packet_id packet_type : Int) (packet_body : List Nat) : Option (List Nat) :=
  (intToBytes (((utf8Encode packet_body).length : Int) + 10) 4).bind (fun sb =>
    (intToBytes packet_id 4).bind (fun ib =>
      (intToBytes packet_type 4).map (fun tb =>
        sb ++ ib ++ tb ++ utf8Encode packet_body ++ [0] ++ [0])))

/-- The session socket `self.__sock`: `Sock.noSock` models `None` (never
connected), `Sock.sopen` a connected socket, `Sock.closed` a socket that
was shut down and closed on this end. -/
inductive Sock where
  | noSock
  | sopen
  | closed
  deriving DecidableEq, Repr

/-- `RCON.disconnect()`: tries `shutdown` then `close` inside
`try/except Exception`.  On `None` the attribute access raises
(`AttributeError`), on an already-closed socket `shutdown` raises
(`OSError`); both are caught and yield `False`.  Returns the flag and the
resulting socket state. -/
def disconnect : Sock → Bool × Sock
  | .noSock => (false, .noSock)
  | .sopen => (true, .closed)
  | .closed => (false, .closed)

/-- Behavior of the transport on one blocking `socket.send` call: either
the call raises, or it accepts some count of bytes (at most the length
passed, possibly fewer). -/
inductive SendOutcome where
  | fail
  | accepted (n : Nat)
  deriving DecidableEq, Repr

/-- `self.__sock.send(data)` under a given transport outcome: raises on a
`None` or closed socket, otherwise returns the number of bytes actually
written (clamped to the data length). -/
def sockSend (s : Sock) (data : List Nat) (o : SendOutcome) : Except Unit Nat :=
  match s with
  | .noSock => .error ()
  | .closed => .error ()
  | .sopen =>
    match o with
    | .fail => .error ()
    | .accepted n => .ok (min n data.length)

/-- `RCON.send_cmd(pack_id, content)`: builds a `SERVERDATA_EXECCOMMAND`
packet and calls `send` once, discarding its return count.  The result
carries the bytes the transport actually wrote, so that partial writes
are observable in the model. -/
def send_cmd (s : Sock) (pack_id : Int) (content : List Nat) (o : SendOutcome) :
    Except Unit (List Nat) :=
  match build_packet pack_id SERVERDATA_EXECCOMMAND content with
  | none => .error ()
  | some pkt =>
    match sockSend s pkt o with
    | .error e => .error e
    | .ok n => .ok (pkt.take n)

/-- `RCON.__set_responded(pack_id)`: appends to `self.__responsed_to`. -/
def set_responded (l : List Nat) (pack_id : Nat) : List Nat := l ++ [pack_id]

/-- `RCON.is_responded(pack_id)`: membership test on `self.__responsed_to`. -/
def is_responded (l : List Nat) (pack_id : Nat) : Bool := pack_id ∈ l

/-- A sequence of `__set_responded` calls applied in order. -/
def applyResponses (l : List Nat) (ids : List Nat) : List Nat :=
  ids.foldl set_responded l

/-- How the receive loop of `RCON.__reception` ended in a bounded run:
the peer sent a zero-length read (`peerClosed`), the supplied chunk list
ran out while the loop was still live (`exhausted`), or an exception
escaped the loop (`exn`). -/
inductive RecEnd where
  | peerClosed
  | exhausted
  | exn
  deriving DecidableEq, Repr

/-- The `while self.running` loop of `RCON.__reception` over a finite
list of `recv` results: a zero-length chunk triggers the
`self.disconnect()` branch and breaks; a decode exception escapes the
thread uncaught, after the packets completed earlier in that buffer
were already printed and recorded.  Returns the packets emitted, how
the loop ended, and whether `disconnect` was invoked by the loop. -/
def receptionLoop (s : RState) : List (List Nat) → List PacketData × RecEnd × Bool
  | [] => ([], .exhausted, false)
  | buf :: bufs =>
    if buf = [] then ([], .peerClosed, true)
    else
      match processBytesEm s buf with
      | (ps, .error _) => (ps, .exn, false)
      | (ps, .ok s') =>
        let r := receptionLoop s' bufs
        (ps ++ r.1, r.2.1, r.2.2)

/-- The auth packet id hard-coded in `RCON.connect` (`pack_id = 50`). -/
def authPackId : Nat := 50

/-- The sleep length of the polling loop in `RCON.connect`
(`time.sleep(0.2)`), in seconds. -/
def authSleepSeconds : ℚ := 0.2

/-- The `while not self.is_responded(50): time.sleep(0.2)` loop of
`RCON.connect`, fuel-bounded: `resp i` is the responded-ids list visible
at the `i`-th poll; returns the poll index at which the loop exits, or
`none` if the fuel runs out with the loop still spinning. -/
def connectWait (resp : Nat → List Nat) : Nat → Nat → Option Nat
  | _, 0 => none
  | i, fuel + 1 =>
    if is_responded (resp i) authPackId then some i else connectWait resp (i + 1) fuel

/-- An abstract message to encode: id, type, and body code points. -/
structure Msg where
  pid : Nat
  ty : Nat
  body : List Nat
  deriving DecidableEq, Repr

/-- The hypotheses under which `build_packet` succeeds: both integers fit
in unsigned 32-bit, the body is encodable text, and the size field fits. -/
def ValidMsg (m : Msg) : Prop :=
  m.pid < 4294967296 ∧ m.ty < 4294967296 ∧ (∀ c ∈ m.body, ValidChar c) ∧
    (utf8Encode m.body).length + 10 < 4294967296

instance (m : Msg) : Decidable (ValidMsg m) := by
  unfold ValidMsg; infer_instance

/-- The wire bytes `__build_packet` produces for a valid message. -/
def encodeMsg (m : Msg) : List Nat :=
  leBytes ((utf8Encode m.body).length + 10) 4 ++ leBytes m.pid 4 ++ leBytes m.ty 4 ++
    utf8Encode m.body ++ [0] ++ [0]

/-- The `PacketData` record the reception parser emits for that wire
sequence: note the body carries a trailing NUL code point. -/
def decodedMsg (m : Msg) : PacketData :=
  ⟨some ((utf8Encode m.body).length + 10), some m.pid, some m.ty, some (m.body ++ [0])⟩

/-- Unfolding lemma for `fromLE` on a cons cell. -/
theorem fromLE_cons (b : Nat) (l : List Nat) : fromLE (b :: l) = fromLE l * 256 + b := rfl

/-- `int.from_bytes` inverts `int.to_bytes` for values in range. -/
theorem fromLE_leBytes : ∀ (w n : Nat), n < 2 ^ (8 * w) → fromLE (leBytes n w) = n := by
  intro w
  induction w with
  | zero =>
    intro n h
    simp only [leBytes, fromLE, List.foldr_nil]
    omega
  | succ w ih =>
    intro n h
    have hpow : (2 : Nat) ^ (8 * (w + 1)) = 2 ^ (8 * w) * 256 := by
      rw [show 8 * (w + 1) = 8 * w + 8 by ring, pow_add]
      norm_num
    rw [hpow] at h
    have hdiv : n / 256 < 2 ^ (8 * w) := by omega
    show fromLE (n % 256 :: leBytes (n / 256) w) = n
    rw [fromLE_cons, ih _ hdiv]
    omega

/-- A successful `decodeOne` strictly consumes input. -/
theorem decodeOne_length {l : List Nat} {v : Nat} {rest2 : List Nat}
    (h : decodeOne l = some (v, rest2)) : rest2.length < l.length := by
  match l with
  | [] => simp [decodeOne] at h
  | b :: rest =>
    simp only [decodeOne] at h
    split_ifs at h <;>
      simp only [Option.some.injEq, Prod.mk.injEq] at h <;>
      obtain ⟨hv, hr⟩ := h <;>
      rw [← hr] <;>
      simp [List.length_drop] <;> omega

/-- The fuel of `utf8DecodeF` is irrelevant once it covers the input
length. -/
theorem utf8DecodeF_congr : ∀ (f1 f2 : Nat) (l : List Nat), l.length ≤ f1 → l.length ≤ f2 →
    utf8DecodeF f1 l = utf8DecodeF f2 l := by
  intro f1
  induction f1 with
  | zero =>
    intro f2 l h1 _
    match l with
    | [] =>
      match f2 with
      | 0 => rfl
      | _ + 1 => rfl
    | _ :: _ => simp at h1
  | succ f1 ih =>
    intro f2 l h1 h2
    match l with
    | [] =>
      match f2 with
      | 0 => rfl
      | _ + 1 => rfl
    | b :: rest =>
      match f2 with
      | 0 => simp at h2
      | f2 + 1 =>
        show (match decodeOne (b :: rest) with
          | none => none
          | some (v, rest2) => (utf8DecodeF f1 rest2).map (fun s => v :: s)) =
          (match decodeOne (b :: rest) with
          | none => none
          | some (v, rest2) => (utf8DecodeF f2 rest2).map (fun s => v :: s))
        cases hd : decodeOne (b :: rest) with
        | none => rfl
        | some p =>
          obtain ⟨v, rest2⟩ := p
          have hl := decodeOne_length hd
          simp only [List.length_cons] at hl h1 h2
          show (utf8DecodeF f1 rest2).map (fun s => v :: s) =
            (utf8DecodeF f2 rest2).map (fun s => v :: s)
          rw [ih f2 rest2 (by omega) (by omega)]

/-- `decodeOne` inverts `utf8EncodeChar` on a valid code point, leaving
the tail untouched. -/
theorem decodeOne_encodeChar (c : Nat) (hc : ValidChar c) (rest : List Nat) :
    decodeOne (utf8EncodeChar c ++ rest) = some (c, rest) := by
  obtain ⟨h1, h2⟩ := hc
  by_cases ha : c < 128
  · rw [show utf8EncodeChar c = [c] by rw [utf8EncodeChar, if_pos ha]]
    simp only [List.cons_append, List.nil_append, decodeOne]
    rw [if_pos ha]
  · by_cases hb : c < 2048
    · rw [show utf8EncodeChar c = [192 + c / 64, 128 + c % 64] by
        rw [utf8EncodeChar, if_neg ha, if_pos hb]]
      simp only [List.cons_append, List.nil_append, decodeOne, List.getD_cons_zero,
        List.getD_cons_succ, List.length_cons, List.drop_succ_cons, List.drop_zero]
      rw [if_neg (by omega : ¬(192 + c / 64 < 128)), if_neg (by omega : ¬(192 + c / 64 < 192)),
        if_pos (by omega : 192 + c / 64 < 224)]
      rw [if_pos (show 1 ≤ rest.length + 1 ∧ contB (128 + c % 64) from
        ⟨by omega, by omega, by omega⟩)]
      rw [if_pos (by omega : 128 ≤ (192 + c / 64 - 192) * 64 + (128 + c % 64 - 128))]
      rw [show (192 + c / 64 - 192) * 64 + (128 + c % 64 - 128) = c by omega]
    · by_cases hd : c < 65536
      · rw [show utf8EncodeChar c = [224 + c / 4096, 128 + c / 64 % 64, 128 + c % 64] by
          rw [utf8EncodeChar, if_neg ha, if_neg hb, if_pos hd]]
        simp only [List.cons_append, List.nil_append, decodeOne, List.getD_cons_zero,
          List.getD_cons_succ, List.length_cons, List.drop_succ_cons, List.drop_zero]
        rw [if_neg (by omega : ¬(224 + c / 4096 < 128)),
          if_neg (by omega : ¬(224 + c / 4096 < 192)),
          if_neg (by omega : ¬(224 + c / 4096 < 224)),
          if_pos (by omega : 224 + c / 4096 < 240)]
        rw [if_pos (show 2 ≤ rest.length + 1 + 1 ∧ contB (128 + c / 64 % 64) ∧
            contB (128 + c % 64) from ⟨by omega, ⟨by omega, by omega⟩, by omega, by omega⟩)]
        rw [if_pos (show 2048 ≤ (224 + c / 4096 - 224) * 4096 +
            (128 + c / 64 % 64 - 128) * 64 + (128 + c % 64 - 128) ∧
            ¬(55296 ≤ (224 + c / 4096 - 224) * 4096 +
              (128 + c / 64 % 64 - 128) * 64 + (128 + c % 64 - 128) ∧
              (224 + c / 4096 - 224) * 4096 +
              (128 + c / 64 % 64 - 128) * 64 + (128 + c % 64 - 128) < 57344) from
          ⟨by omega, by omega⟩)]
        rw [show (224 + c / 4096 - 224) * 4096 +
          (128 + c / 64 % 64 - 128) * 64 + (128 + c % 64 - 128) = c by omega]
      · rw [show utf8EncodeChar c =
            [240 + c / 262144, 128 + c / 4096 % 64, 128 + c / 64 % 64, 128 + c % 64] by
          rw [utf8EncodeChar, if_neg ha, if_neg hb, if_neg hd]]
        simp only [List.cons_append, List.nil_append, decodeOne, List.getD_cons_zero,
          List.getD_cons_succ, List.length_cons, List.drop_succ_cons, List.drop_zero]
        rw [if_neg (by omega : ¬(240 + c / 262144 < 128)),
          if_neg (by omega : ¬(240 + c / 262144 < 192)),
          if_neg (by omega : ¬(240 + c / 262144 < 224)),
          if_neg (by omega : ¬(240 + c / 262144 < 240)),
          if_pos (by omega : 240 + c / 262144 < 248)]
        rw [if_pos (show 3 ≤ rest.length + 1 + 1 + 1 ∧ contB (128 + c / 4096 % 64) ∧
            contB (128 + c / 64 % 64) ∧ contB (128 + c % 64) from
          ⟨by omega, ⟨by omega, by omega⟩, ⟨by omega, by omega⟩, by omega, by omega⟩)]
        rw [if_pos (show 65536 ≤ (240 + c / 262144 - 240) * 262144 +
            (128 + c / 4096 % 64 - 128) * 4096 + (128 + c / 64 % 64 - 128) * 64 +
            (128 + c % 64 - 128) ∧
            (240 + c / 262144 - 240) * 262144 + (128 + c / 4096 % 64 - 128) * 4096 +
            (128 + c / 64 % 64 - 128) * 64 + (128 + c % 64 - 128) < 1114112 from
          ⟨by omega, by omega⟩)]
        rw [show (240 + c / 262144 - 240) * 262144 + (128 + c / 4096 % 64 - 128) * 4096 +
          (128 + c / 64 % 64 - 128) * 64 + (128 + c % 64 - 128) = c by omega]

/-- Decoding the UTF-8 bytes of one valid code point followed by any tail
recovers the code point and proceeds with the tail. -/
theorem utf8Decode_encodeChar (c : Nat) (hc : ValidChar c) (rest : List Nat) :
    utf8Decode (utf8EncodeChar c ++ rest) = (utf8Decode rest).map (fun s => c :: s) := by
  obtain ⟨b, tl, he⟩ : ∃ b tl, utf8EncodeChar c = b :: tl := by
    unfold utf8EncodeChar
    split_ifs <;> exact ⟨_, _, rfl⟩
  have hd : decodeOne (b :: (tl ++ rest)) = some (c, rest) := by
    have h0 := decodeOne_encodeChar c hc rest
    rw [he] at h0
    simpa using h0
  unfold utf8Decode
  rw [he]
  simp only [List.cons_append, List.length_cons]
  rw [utf8DecodeF]
  rw [hd]
  show (utf8DecodeF (tl ++ rest).length rest).map (fun s => c :: s) =
    (utf8DecodeF rest.length rest).map (fun s => c :: s)
  rw [utf8DecodeF_congr _ _ rest (by simp) (le_refl _)]

/-- Decoding the UTF-8 bytes of a valid string followed by any tail
recovers the string and proceeds with the tail. -/
theorem utf8Decode_encode_append (s : List Nat) (hs : ∀ c ∈ s, ValidChar c)
    (rest : List Nat) :
    utf8Decode (utf8Encode s ++ rest) = (utf8Decode rest).map (fun t => s ++ t) := by
  induction s with
  | nil =>
    simp only [utf8Encode, List.nil_append]
    cases utf8Decode rest <;> rfl
  | cons c cs ih =>
    simp only [utf8Encode, List.append_assoc]
    rw [utf8Decode_encodeChar c (hs c (by simp)) _, ih (fun x hx => hs x (by simp [hx]))]
    cases utf8Decode rest <;> rfl

/-- Decoding inverts encoding on valid strings. -/
theorem utf8Decode_encode (s : List Nat) (hs : ∀ c ∈ s, ValidChar c) :
    utf8Decode (utf8Encode s) = some s := by
  have h0 := utf8Decode_encode_append s hs []
  simpa [utf8Decode, utf8DecodeF] using h0

theorem processBytes_append (s : RState) (xs ys : List Nat) :
    processBytes s (xs ++ ys) =
      match processBytes s xs with
      | .error e => .error e
      | .ok (s1, ps) =>
        match processBytes s1 ys with
        | .error e => .error e
        | .ok (s2, qs) => .ok (s2, ps ++ qs) := by
  induction xs generalizing s with
  | nil =>
    simp only [List.nil_append, processBytes]
    cases h : processBytes s ys with
    | error e => rfl
    | ok r => obtain ⟨s2, qs⟩ := r; rfl
  | cons b xs ih =>
    simp only [List.cons_append, processBytes]
    rcases hr : rstep s b with e | ⟨s1, p⟩
    · rfl
    · rcases p with _ | p
      · exact ih s1
      · simp only [hr]
        rw [List.append_eq_has_append, ih s1]
        rcases hx : processBytes s1 xs with e | ⟨s2, ps⟩ <;> simp only [hx]
        rcases hy : processBytes s2 ys with e | ⟨s3, qs⟩ <;> rfl

/-- `processBytesEm` is the same byte loop as `processBytes`: the
outcomes coincide, and on success so do the emitted packets — the two
differ only in that `processBytesEm` also reports the packets emitted
before an escaping exception. -/
theorem processBytes_eq_processBytesEm (s : RState) (l : List Nat) :
    processBytes s l =
      match processBytesEm s l with
      | (ps, .ok s2) => .ok (s2, ps)
      | (_, .error e) => .error e := by
  induction l generalizing s with
  | nil => rfl
  | cons b rest ih =>
    simp only [processBytes, processBytesEm]
    rcases hr : rstep s b with e | ⟨s1, p⟩
    · rfl
    · rcases p with _ | p
      · exact ih s1
      · simp only [hr]
        rw [ih s1]
        rcases hx : processBytesEm s1 rest with ⟨ps, e | s2⟩ <;> simp only [hx]

theorem read4_size (cs : PacketData) (b0 b1 b2 b3 : Nat) (rest : List Nat) :
    processBytes ⟨0, [], cs⟩ (b0 :: b1 :: b2 :: b3 :: rest) =
      processBytes ⟨1, [], { cs with size := some (fromLE [b0, b1, b2, b3]) }⟩ rest := by
  simp [processBytes, rstep]

theorem read4_id (cs : PacketData) (b0 b1 b2 b3 : Nat) (rest : List Nat) :
    processBytes ⟨1, [], cs⟩ (b0 :: b1 :: b2 :: b3 :: rest) =
      processBytes ⟨2, [], { cs with pack_id := some (fromLE [b0, b1, b2, b3]) }⟩ rest := by
  simp [processBytes, rstep]

theorem read4_type (cs : PacketData) (b0 b1 b2 b3 : Nat) (rest : List Nat) :
    processBytes ⟨2, [], cs⟩ (b0 :: b1 :: b2 :: b3 :: rest) =
      processBytes ⟨3, [], { cs with pack_type := some (fromLE [b0, b1, b2, b3]) }⟩ rest := by
  simp [processBytes, rstep]

theorem leBytes_four (n : Nat) : leBytes n 4 =
    [n % 256, n / 256 % 256, n / 256 / 256 % 256, n / 256 / 256 / 256 % 256] := rfl

theorem read_size (cs : PacketData) (n : Nat) (hn : n < 4294967296) (rest : List Nat) :
    processBytes ⟨0, [], cs⟩ (leBytes n 4 ++ rest) =
      processBytes ⟨1, [], { cs with size := some n }⟩ rest := by
  have hf : fromLE (leBytes n 4) = n := fromLE_leBytes 4 n (by norm_num; omega)
  rw [leBytes_four] at hf
  rw [leBytes_four]
  simp only [List.cons_append, List.nil_append]
  rw [read4_size, hf]

theorem read_id (cs : PacketData) (n : Nat) (hn : n < 4294967296) (rest : List Nat) :
    processBytes ⟨1, [], cs⟩ (leBytes n 4 ++ rest) =
      processBytes ⟨2, [], { cs with pack_id := some n }⟩ rest := by
  have hf : fromLE (leBytes n 4) = n := fromLE_leBytes 4 n (by norm_num; omega)
  rw [leBytes_four] at hf
  rw [leBytes_four]
  simp only [List.cons_append, List.nil_append]
  rw [read4_id, hf]

theorem read_type (cs : PacketData) (n : Nat) (hn : n < 4294967296) (rest : List Nat) :
    processBytes ⟨2, [], cs⟩ (leBytes n 4 ++ rest) =
      processBytes ⟨3, [], { cs with pack_type := some n }⟩ rest := by
  have hf : fromLE (leBytes n 4) = n := fromLE_leBytes 4 n (by norm_num; omega)
  rw [leBytes_four] at hf
  rw [leBytes_four]
  simp only [List.cons_append, List.nil_append]
  rw [read4_type, hf]

theorem rstep_body (sz pid ty : Nat) (acc : List Nat) (b : Nat)
    (hlt : (acc.length : Int) < (sz : Int) - 9) :
    rstep ⟨3, acc, ⟨some sz, some pid, some ty, none⟩⟩ b =
      if (((acc.length + 1 : Nat) : Int)) = (sz : Int) - 9 then
        match utf8Decode (acc ++ [b]) with
        | none => .error ()
        | some d => .ok (⟨4, [], ⟨some sz, some pid, some ty, some d⟩⟩, none)
      else .ok (⟨3, acc ++ [b], ⟨some sz, some pid, some ty, none⟩⟩, none) := by
  simp only [rstep]
  rw [if_neg (by simp), if_neg (by simp), if_neg (by simp), if_pos trivial, if_pos hlt]
  simp only [List.length_append, List.length_cons, List.length_nil, Nat.zero_add]

theorem term_step (cs : PacketData) (t : Nat) (rest : List Nat) :
    processBytes ⟨4, [], cs⟩ (t :: rest) =
      match processBytes initState rest with
      | .error e => .error e
      | .ok (s2, ps) => .ok (s2, cs :: ps) := by
  simp [processBytes, rstep, initState, emptyStruct]

theorem body_phase (sz pid ty : Nat) (pending : List Nat) :
    ∀ (acc rest : List Nat), pending ≠ [] →
      acc.length + pending.length + 9 = sz →
      processBytes ⟨3, acc, ⟨some sz, some pid, some ty, none⟩⟩ (pending ++ rest) =
        match utf8Decode (acc ++ pending) with
        | none => .error ()
        | some d => processBytes ⟨4, [], ⟨some sz, some pid, some ty, some d⟩⟩ rest := by
  induction pending with
  | nil => intro acc rest h _; exact absurd rfl h
  | cons b pending ih =>
    intro acc rest _ hlen
    simp only [List.length_cons] at hlen
    have hlt : (acc.length : Int) < (sz : Int) - 9 := by omega
    simp only [List.cons_append, processBytes]
    rw [rstep_body sz pid ty acc b hlt]
    cases pending with
    | nil =>
      simp only [List.length_nil] at hlen
      rw [if_pos (by omega : ((acc.length + 1 : Nat) : Int) = (sz : Int) - 9)]
      cases hdec : utf8Decode (acc ++ [b]) with
      | none => simp [hdec]
      | some d => simp [hdec]
    | cons b2 pending =>
      simp only [List.length_cons] at hlen
      rw [if_neg (by omega : ¬((acc.length + 1 : Nat) : Int) = (sz : Int) - 9)]
      show processBytes ⟨3, acc ++ [b], ⟨some sz, some pid, some ty, none⟩⟩
        ((b2 :: pending) ++ rest) = _
      rw [ih (acc ++ [b]) rest (by simp) (by simp; omega)]
      rw [show (acc ++ [b]) ++ (b2 :: pending) = acc ++ (b :: b2 :: pending) by simp]

theorem build_packet_eq (pid ty : Int) (body : List Nat)
    (hpid : 0 ≤ pid ∧ pid < 4294967296) (hty : 0 ≤ ty ∧ ty < 4294967296)
    (hsz : (utf8Encode body).length + 10 < 4294967296) :
    build_packet pid ty body = some (leBytes ((utf8Encode body).length + 10) 4 ++
      leBytes pid.toNat 4 ++ leBytes ty.toNat 4 ++ utf8Encode body ++ [0] ++ [0]) := by
  have e1 : intToBytes (((utf8Encode body).length : Int) + 10) 4 =
      some (leBytes ((utf8Encode body).length + 10) 4) := by
    unfold intToBytes
    rw [if_pos (show (0 : Int) ≤ ((utf8Encode body).length : Int) + 10 ∧
        ((utf8Encode body).length : Int) + 10 < ((2 ^ (8 * 4) : Nat) : Int) from ⟨by omega, by
      have h2 : (((2 ^ (8 * 4) : Nat) : Int)) = 4294967296 := by norm_num
      rw [h2]; omega⟩)]
    rw [show (((utf8Encode body).length : Int) + 10).toNat = (utf8Encode body).length + 10 by
      omega]
  have e2 : intToBytes pid 4 = some (leBytes pid.toNat 4) := by
    unfold intToBytes
    rw [if_pos (show (0 : Int) ≤ pid ∧ pid < ((2 ^ (8 * 4) : Nat) : Int) from ⟨hpid.1, by
      have h2 : (((2 ^ (8 * 4) : Nat) : Int)) = 4294967296 := by norm_num
      rw [h2]; exact hpid.2⟩)]
  have e3 : intToBytes ty 4 = some (leBytes ty.toNat 4) := by
    unfold intToBytes
    rw [if_pos (show (0 : Int) ≤ ty ∧ ty < ((2 ^ (8 * 4) : Nat) : Int) from ⟨hty.1, by
      have h2 : (((2 ^ (8 * 4) : Nat) : Int)) = 4294967296 := by norm_num
      rw [h2]; exact hty.2⟩)]
  unfold build_packet
  rw [e1, e2, e3]
  rfl

theorem parse_encoded (pid ty : Nat) (body : List Nat)
    (hv : ∀ c ∈ body, ValidChar c)
    (hpid : pid < 4294967296) (hty : ty < 4294967296)
    (hsz : (utf8Encode body).length + 10 < 4294967296) (rest : List Nat) :
    processBytes initState ((leBytes ((utf8Encode body).length + 10) 4 ++ leBytes pid 4 ++
        leBytes ty 4 ++ utf8Encode body ++ [0] ++ [0]) ++ rest) =
      match processBytes initState rest with
      | .error e => .error e
      | .ok (s2, ps) =>
        .ok (s2, ⟨some ((utf8Encode body).length + 10), some pid, some ty,
          some (body ++ [0])⟩ :: ps) := by
  simp only [List.append_assoc]
  show processBytes ⟨0, [], emptyStruct⟩ _ = _
  rw [read_size _ _ (by omega) _]
  rw [read_id _ _ (by omega) _]
  rw [read_type _ _ (by omega) _]
  show processBytes ⟨3, [], ⟨some ((utf8Encode body).length + 10), some pid, some ty, none⟩⟩
    _ = _
  rw [show utf8Encode body ++ ([0] ++ ([0] ++ rest)) =
    (utf8Encode body ++ [0]) ++ (0 :: rest) by simp]
  rw [body_phase _ pid ty (utf8Encode body ++ [0]) [] (0 :: rest) (by simp) (by simp)]
  simp only [List.nil_append]
  rw [utf8Decode_encode_append body hv [0]]
  rw [show utf8Decode [0] = some [0] from rfl]
  show processBytes ⟨4, [], ⟨some ((utf8Encode body).length + 10), some pid, some ty,
    some (body ++ [0])⟩⟩ (0 :: rest) = _
  rw [term_step]

theorem parse_encodeMsg (m : Msg) (hm : ValidMsg m) (rest : List Nat) :
    processBytes initState (encodeMsg m ++ rest) =
      match processBytes initState rest with
      | .error e => .error e
      | .ok (s2, ps) => .ok (s2, decodedMsg m :: ps) := by
  obtain ⟨h1, h2, h3, h4⟩ := hm
  exact parse_encoded m.pid m.ty m.body h3 h1 h2 h4 rest

theorem parse_msgs (ms : List Msg) (hv : ∀ m ∈ ms, ValidMsg m) :
    processBytes initState (ms.map encodeMsg).flatten = .ok (initState, ms.map decodedMsg) := by
  induction ms with
  | nil => rfl
  | cons m ms ih =>
    simp only [List.map_cons, List.flatten_cons]
    rw [parse_encodeMsg m (hv m (by simp)) _]
    rw [ih (fun x hx => hv x (by simp [hx]))]

theorem processChunks_join (cs : List (List Nat)) (s : RState) :
    processChunks s cs = processBytes s cs.flatten := by
  induction cs generalizing s with
  | nil => rfl
  | cons c cs ih =>
    simp only [List.flatten_cons, processChunks]
    rw [processBytes_append]
    rcases hx : processBytes s c with e | ⟨s1, ps⟩ <;> simp only [hx]
    rw [ih s1]

theorem build_packet_encodeMsg (m : Msg) (hm : ValidMsg m) :
    build_packet m.pid m.ty m.body = some (encodeMsg m) := by
  obtain ⟨h1, h2, h3, h4⟩ := hm
  rw [build_packet_eq _ _ _ ⟨by omega, by omega⟩ ⟨by omega, by omega⟩ h4]
  unfold encodeMsg
  rw [Int.toNat_natCast, Int.toNat_natCast]

/-- C1 counterexample: `encode(1, 0, "A")` decodes to one packet whose
body is "A" followed by a NUL, not "A" — the round trip is not the
identity on the body. -/
theorem C1_counterexample :
    build_packet 1 0 [65] = some [11, 0, 0, 0, 1, 0, 0, 0, 0, 0, 0, 0, 65, 0, 0] ∧
    processBytes initState [11, 0, 0, 0, 1, 0, 0, 0, 0, 0, 0, 0, 65, 0, 0] =
      .ok (initState, [⟨some 11, some 1, some 0, some [65, 0]⟩]) ∧
    some ([65, 0] : List Nat) ≠ some [65] :=
  ⟨rfl, rfl, by decide⟩

/-- C1 (amended): for every id and type in unsigned 32-bit range and every
NUL-free UTF-8 body (whose size field fits), feeding the bytes of
`__build_packet(id, type, body)` to the reception parser yields exactly
one decoded packet whose id and type equal the inputs and whose body is
the input body followed by exactly one NUL character. -/
theorem C1_roundtrip (m : Msg) (hm : ValidMsg m) (_hnz : ∀ c ∈ m.body, c ≠ 0) :
    build_packet m.pid m.ty m.body = some (encodeMsg m) ∧
    processBytes initState (encodeMsg m) = .ok (initState, [decodedMsg m]) ∧
    (decodedMsg m).pack_id = some m.pid ∧ (decodedMsg m).pack_type = some m.ty ∧
    (decodedMsg m).body = some (m.body ++ [0]) := by
  refine ⟨build_packet_encodeMsg m hm, ?_, rfl, rfl, rfl⟩
  have h0 := parse_encodeMsg m hm []
  rw [List.append_nil] at h0
  simpa [processBytes] using h0

theorem C1_roundtrip_witness :
    ValidMsg ⟨1, 0, [65]⟩ ∧ (∀ c ∈ [65], c ≠ 0) ∧
    processBytes initState (encodeMsg ⟨1, 0, [65]⟩) =
      .ok (initState, [decodedMsg ⟨1, 0, [65]⟩]) :=
  ⟨by decide, by decide, (C1_roundtrip ⟨1, 0, [65]⟩ (by decide) (by decide)).2.1⟩

/-- C2 counterexample: with size 11 (body "A", so size - 10 = 1), one
body byte leaves the parser still in the body state; it takes
size - 9 = 2 bytes to finish, and the resulting body is "A" plus the
first terminator byte, not the 1-byte body the claim predicts. -/
theorem C2_counterexample :
    processBytes ⟨3, [], ⟨some 11, some 1, some 0, none⟩⟩ [65] =
      .ok (⟨3, [65], ⟨some 11, some 1, some 0, none⟩⟩, []) ∧
    processBytes ⟨3, [], ⟨some 11, some 1, some 0, none⟩⟩ [65, 0] =
      .ok (⟨4, [], ⟨some 11, some 1, some 0, some [65, 0]⟩⟩, []) ∧
    ([65, 0] : List Nat) ≠ [65] :=
  ⟨rfl, rfl, by decide⟩

/-- C2 (amended): the body state consumes exactly `size - 9` bytes
(using the size already parsed for the current packet) and decodes them
as UTF-8 — on decode failure the exception escapes as an error; the
terminator state then consumes exactly one byte, whose value is not
validated, emits the completed packet, and resets the parser to the
initial reading-size state. -/
theorem C2_body_and_terminator (sz pid ty : Nat) (pending : List Nat) (t : Nat)
    (rest : List Nat) (hlen : pending.length + 9 = sz) (hne : pending ≠ []) :
    (∀ d, utf8Decode pending = some d →
      processBytes ⟨3, [], ⟨some sz, some pid, some ty, none⟩⟩ pending =
        .ok (⟨4, [], ⟨some sz, some pid, some ty, some d⟩⟩, []) ∧
      processBytes ⟨3, [], ⟨some sz, some pid, some ty, none⟩⟩ (pending ++ t :: rest) =
        match processBytes initState rest with
        | .error e => .error e
        | .ok (s2, ps) => .ok (s2, ⟨some sz, some pid, some ty, some d⟩ :: ps)) ∧
    (utf8Decode pending = none →
      processBytes ⟨3, [], ⟨some sz, some pid, some ty, none⟩⟩ (pending ++ t :: rest) =
        .error ()) := by
  have hb := fun (tail : List Nat) =>
    body_phase sz pid ty pending [] tail hne (by simpa using hlen)
  simp only [List.nil_append] at hb
  constructor
  · intro d hd
    constructor
    · have h1 := hb []
      rw [List.append_nil] at h1
      rw [h1]
      simp only [hd]
      rfl
    · rw [hb (t :: rest)]
      simp only [hd]
      exact term_step _ t rest
  · intro hnone
    rw [hb (t :: rest)]
    simp only [hnone]

theorem C2_body_and_terminator_witness :
    ([65, 0] : List Nat).length + 9 = 11 ∧
    processBytes ⟨3, [], ⟨some 11, some 1, some 0, none⟩⟩ ([65, 0] ++ [0] ++ [7]) =
      .ok (⟨0, [7], emptyStruct⟩, [⟨some 11, some 1, some 0, some [65, 0]⟩]) := by
  refine ⟨by decide, ?_⟩
  have h0 := ((C2_body_and_terminator 11 1 0 [65, 0] 0 [7] (by decide) (by decide)).1
    [65, 0] (by decide)).2
  rw [show ([65, 0] ++ [0] ++ [7] : List Nat) = [65, 0] ++ 0 :: [7] by decide]
  rw [h0]
  rfl

/-- C3: fragmentation and coalescing invariance. For any concatenation
of N valid encoded packets and any split of those bytes into chunks
(the reception loop imposes no constraint relating chunk boundaries to
packet boundaries), feeding the chunks in order equals feeding the whole
sequence at once, and both decode exactly the N packets in order. -/
theorem C3_fragmentation (ms : List Msg) (hv : ∀ m ∈ ms, ValidMsg m)
    (chunks : List (List Nat)) (_hne : ∀ c ∈ chunks, c ≠ [])
    (hsplit : chunks.flatten = (ms.map encodeMsg).flatten) :
    processChunks initState chunks = processBytes initState (ms.map encodeMsg).flatten ∧
    processChunks initState chunks = .ok (initState, ms.map decodedMsg) := by
  have h1 : processChunks initState chunks = processBytes initState (ms.map encodeMsg).flatten := by
    rw [processChunks_join, hsplit]
  exact ⟨h1, by rw [h1, parse_msgs ms hv]⟩

theorem C3_fragmentation_witness :
    processChunks initState [[11, 0, 0], [0, 1, 0, 0, 0, 0, 0, 0, 0, 65, 0], [0],
        [11, 0, 0, 0, 2, 0, 0, 0, 0, 0, 0, 0, 66, 0, 0]] =
      .ok (initState, [decodedMsg ⟨1, 0, [65]⟩, decodedMsg ⟨2, 0, [66]⟩]) :=
  (C3_fragmentation [⟨1, 0, [65]⟩, ⟨2, 0, [66]⟩] (by decide)
    [[11, 0, 0], [0, 1, 0, 0, 0, 0, 0, 0, 0, 65, 0], [0],
      [11, 0, 0, 0, 2, 0, 0, 0, 0, 0, 0, 0, 66, 0, 0]] (by decide) (by decide)).2

/-- C4: `__build_packet` emits exactly
`[size:4][id:4][type:4][utf8 body][0x00][0x00]` in little-endian with
`size = len(utf8 body) + 10`; the size field round-trips through
`int.from_bytes`, the total length is `len(body) + 14`, and
`encode(50, 3, "hunter2")` is the specified 21-byte sequence. -/
theorem C4_encode_layout (m : Msg) (hm : ValidMsg m) :
    build_packet m.pid m.ty m.body = some (leBytes ((utf8Encode m.body).length + 10) 4 ++
      leBytes m.pid 4 ++ leBytes m.ty 4 ++ utf8Encode m.body ++ [0] ++ [0]) ∧
    fromLE (leBytes ((utf8Encode m.body).length + 10) 4) = (utf8Encode m.body).length + 10 ∧
    (encodeMsg m).length = (utf8Encode m.body).length + 14 ∧
    build_packet 50 3 hunter2 = some [17, 0, 0, 0, 50, 0, 0, 0, 3, 0, 0, 0,
      104, 117, 110, 116, 101, 114, 50, 0, 0] := by
  obtain ⟨h1, h2, h3, h4⟩ := hm
  refine ⟨build_packet_encodeMsg m ⟨h1, h2, h3, h4⟩, ?_, ?_, rfl⟩
  · exact fromLE_leBytes 4 _ (by norm_num; omega)
  · simp [encodeMsg, leBytes_four]

theorem C4_encode_layout_witness :
    ValidMsg ⟨50, 3, hunter2⟩ ∧
    build_packet 50 3 hunter2 = some [17, 0, 0, 0, 50, 0, 0, 0, 3, 0, 0, 0,
      104, 117, 110, 116, 101, 114, 50, 0, 0] :=
  ⟨by decide, (C4_encode_layout ⟨50, 3, hunter2⟩ (by decide)).2.2.2⟩

theorem intToBytes_none (n : Int) (w : Nat)
    (h : n < 0 ∨ ((2 ^ (8 * w) : Nat) : Int) ≤ n) : intToBytes n w = none := by
  unfold intToBytes
  rw [if_neg (by omega)]

/-- C5: the code calls `socket.send` once and discards its byte count, so
when the transport accepts only part of the packet the call still
returns success with only a prefix written — a silent partial send.
Failures (closed or never-connected socket) are surfaced.  Concretely,
`send_cmd(50, "hunter2")` on a transport that accepts 1 byte succeeds
having written only the first byte of the 21-byte packet. -/
theorem C5_partial_send :
    send_cmd Sock.sopen 50 hunter2 (SendOutcome.accepted 1) = .ok [17] ∧
    build_packet 50 SERVERDATA_EXECCOMMAND hunter2 = some [17, 0, 0, 0, 50, 0, 0, 0,
      2, 0, 0, 0, 104, 117, 110, 116, 101, 114, 50, 0, 0] ∧
    ([17] : List Nat) ≠ [17, 0, 0, 0, 50, 0, 0, 0, 2, 0, 0, 0,
      104, 117, 110, 116, 101, 114, 50, 0, 0] ∧
    send_cmd Sock.closed 50 hunter2 (SendOutcome.accepted 21) = .error () ∧
    send_cmd Sock.noSock 50 hunter2 (SendOutcome.accepted 21) = .error () ∧
    send_cmd Sock.sopen 50 hunter2 SendOutcome.fail = .error () :=
  ⟨rfl, rfl, by decide, rfl, rfl, rfl⟩

/-- C6: `disconnect` is total and returns `true` exactly when the socket
was open (it then performs the shutdown-and-close); on a never-connected
session it returns `false`, and a second `disconnect` after any first
one returns `false`. -/
theorem C6_disconnect :
    (∀ s : Sock, (disconnect s).1 = true ↔ s = Sock.sopen) ∧
    (disconnect Sock.noSock).1 = false ∧
    (∀ s : Sock, (disconnect (disconnect s).2).1 = false) := by
  refine ⟨fun s => ?_, rfl, fun s => ?_⟩ <;> cases s <;> simp [disconnect]

theorem applyResponses_eq_append (ids l : List Nat) : applyResponses l ids = l ++ ids := by
  induction ids generalizing l with
  | nil => simp [applyResponses]
  | cons x ids ih =>
    show applyResponses (set_responded l x) ids = l ++ x :: ids
    rw [ih]
    simp [set_responded]

/-- C7: the responded-ids collection only ever grows — once a packet id
is a member it remains one after any further sequence of appends — and
after responses for ids 60 and 61 arrive in either order, both are
reported responded. -/
theorem C7_responded_append_only :
    (∀ (l ids : List Nat) (pid : Nat), is_responded l pid = true →
      is_responded (applyResponses l ids) pid = true) ∧
    (∀ l : List Nat,
      is_responded (applyResponses l [60, 61]) 60 = true ∧
      is_responded (applyResponses l [60, 61]) 61 = true ∧
      is_responded (applyResponses l [61, 60]) 60 = true ∧
      is_responded (applyResponses l [61, 60]) 61 = true) := by
  constructor
  · intro l ids pid h
    rw [applyResponses_eq_append]
    simp only [is_responded, decide_eq_true_eq, List.mem_append] at h ⊢
    exact Or.inl h
  · intro l
    refine ⟨?_, ?_, ?_, ?_⟩ <;> (rw [applyResponses_eq_append]; simp [is_responded])

theorem C7_responded_append_only_witness :
    is_responded (applyResponses [50] [60, 61]) 50 = true :=
  C7_responded_append_only.1 [50] [60, 61] 50 (by decide)

/-- C8: the polling loop of `connect` waits on the sentinel auth id 50:
it only exits at a poll whose responded-ids snapshot contains id 50; if
no snapshot ever contains it the loop never exits (no fuel bound makes
it return), and the per-iteration sleep constant is 0.2 seconds
(200 ms). -/
theorem C8_connect_blocks :
    (∀ (resp : Nat → List Nat) (fuel i j : Nat), connectWait resp i fuel = some j →
      is_responded (resp j) authPackId = true) ∧
    (∀ resp : Nat → List Nat, (∀ i, is_responded (resp i) authPackId = false) →
      ∀ fuel i, connectWait resp i fuel = none) ∧
    authPackId = 50 ∧ authSleepSeconds = 1 / 5 := by
  refine ⟨?_, ?_, rfl, by norm_num [authSleepSeconds]⟩
  · intro resp fuel
    induction fuel with
    | zero => intro i j h; exact absurd h (by simp [connectWait])
    | succ f ih =>
      intro i j h
      simp only [connectWait] at h
      by_cases hc : is_responded (resp i) authPackId = true
      · rw [if_pos hc] at h
        cases h
        exact hc
      · rw [if_neg hc] at h
        exact ih (i + 1) j h
  · intro resp h fuel
    induction fuel with
    | zero => intro i; rfl
    | succ f ih =>
      intro i
      simp only [connectWait, h i]
      exact ih (i + 1)

theorem C8_connect_blocks_witness :
    is_responded ((fun _ => [50]) 0) authPackId = true ∧
    connectWait (fun _ => []) 0 3 = none :=
  ⟨C8_connect_blocks.1 (fun _ => [50]) 1 0 0 (by decide),
    C8_connect_blocks.2.1 (fun _ => []) (fun _ => rfl) 3 0⟩

/-- C9 counterexample: a body whose bytes are not valid UTF-8 (first
byte 255) makes the reception loop end as an escaping exception with no
disconnect, while a zero-length read ends it via the disconnect branch —
the two paths differ, contradicting the claim that a decode error takes
the peer-closed path. -/
theorem C9_counterexample :
    receptionLoop initState [[14, 0, 0, 0, 7, 0, 0, 0, 0, 0, 0, 0, 255, 65, 66, 67, 68]] =
      ([], RecEnd.exn, false) ∧
    receptionLoop initState [[]] = ([], RecEnd.peerClosed, true) ∧
    RecEnd.exn ≠ RecEnd.peerClosed ∧ (false : Bool) ≠ true :=
  ⟨rfl, rfl, by decide, by decide⟩

/-- C9 (amended): a UTF-8 decode error is fatal to the receive loop, but
as an uncaught exception: the loop ends without invoking `disconnect`,
and the packets completed earlier in the same buffer remain emitted —
they were printed and recorded before the exception was raised.  A
zero-length read, by contrast, invokes `disconnect` and stops the loop
gracefully. -/
theorem C9_decode_error_path (s : RState) (buf : List Nat) (bufs : List (List Nat))
    (hne : buf ≠ []) (ps : List PacketData)
    (herr : processBytesEm s buf = (ps, .error ())) :
    receptionLoop s (buf :: bufs) = (ps, RecEnd.exn, false) ∧
    receptionLoop s ([] :: bufs) = ([], RecEnd.peerClosed, true) := by
  constructor
  · rw [receptionLoop, if_neg hne, herr]
  · rw [receptionLoop, if_pos rfl]

theorem C9_decode_error_path_witness :
    receptionLoop initState
        [[11, 0, 0, 0, 1, 0, 0, 0, 0, 0, 0, 0, 65, 0, 0,
          14, 0, 0, 0, 7, 0, 0, 0, 0, 0, 0, 0, 255, 65, 66, 67, 68], [1, 2, 3]] =
      ([⟨some 11, some 1, some 0, some [65, 0]⟩], RecEnd.exn, false) :=
  (C9_decode_error_path initState
    [11, 0, 0, 0, 1, 0, 0, 0, 0, 0, 0, 0, 65, 0, 0,
      14, 0, 0, 0, 7, 0, 0, 0, 0, 0, 0, 0, 255, 65, 66, 67, 68]
    [[1, 2, 3]] (by decide) [⟨some 11, some 1, some 0, some [65, 0]⟩] (by rfl)).1

/-- C10: `__build_packet` rejects (OverflowError, modelled as `none`) any
id, type, or computed size outside unsigned 32-bit range, and the parser
reads wire integers as unsigned little-endian: an id field of four 0xFF
bytes is recorded as 4294967295 = 2^32 - 1, never as a negative value. -/
theorem C10_unsigned_fields :
    (∀ (pid ty : Int) (body : List Nat), pid < 0 ∨ 4294967296 ≤ pid →
      build_packet pid ty body = none) ∧
    (∀ (pid ty : Int) (body : List Nat), ty < 0 ∨ 4294967296 ≤ ty →
      build_packet pid ty body = none) ∧
    (∀ (pid ty : Int) (body : List Nat), 4294967296 ≤ (utf8Encode body).length + 10 →
      build_packet pid ty body = none) ∧
    processBytes initState [11, 0, 0, 0, 255, 255, 255, 255, 0, 0, 0, 0, 65, 0, 0] =
      .ok (initState, [⟨some 11, some 4294967295, some 0, some [65, 0]⟩]) ∧
    (4294967295 : Nat) = 2 ^ 32 - 1 := by
  have hb4 : ((2 ^ (8 * 4) : Nat) : Int) = 4294967296 := by norm_num
  refine ⟨?_, ?_, ?_, rfl, by norm_num⟩
  · intro pid ty body h
    unfold build_packet
    rw [intToBytes_none pid 4 (by omega)]
    cases intToBytes (((utf8Encode body).length : Int) + 10) 4 <;> simp
  · intro pid ty body h
    unfold build_packet
    rw [intToBytes_none ty 4 (by omega)]
    cases intToBytes (((utf8Encode body).length : Int) + 10) 4 <;>
      cases intToBytes pid 4 <;> simp
  · intro pid ty body h
    unfold build_packet
    rw [intToBytes_none (((utf8Encode body).length : Int) + 10) 4 (by omega)]
    simp

theorem C10_unsigned_fields_witness :
    build_packet (-1) 2 [] = none ∧ build_packet 4294967296 2 [] = none ∧
    build_packet 2 (-7) [] = none :=
  ⟨C10_unsigned_fields.1 (-1) 2 [] (by norm_num),
    C10_unsigned_fields.1 4294967296 2 [] (by norm_num),
    C10_unsigned_fields.2.1 2 (-7) [] (by norm_num)⟩

end Arkrcon
